import Mathlib

/-!
Verification of the HybridAssembly pipeline wrapper (`hybrid_assembly.py`).

The script chains three external tools (bbduk.sh, tadpole.sh, unicycler) and
manages their input/output files.  We embed it shallowly: the filesystem is a
record of file paths and directory paths, a run state carries the filesystem
together with the logfile contents, the console messages emitted through the
`logging` module, and the list of commands handed to `subprocess.call`; the
behaviour of an external command is an environment parameter mapping the
literal command string to its filesystem effect, its combined stdout/stderr
text, and its exit status.
-/

namespace HybridAssembly

/-! ### Strings and paths -/

/-- Model of Python `str.startswith`. -/
def pyStartsWith (s p : String) : Bool := p.data.isPrefixOf s.data

/-- Model of Python `str.endswith`. -/
def pyEndsWith (s p : String) : Bool := p.data.isSuffixOf s.data

/-- Model of POSIX `os.path.join` on two components: if the second component
is absolute it wins; otherwise the two are glued with exactly one `/` unless
the first component is empty or already ends in `/`. -/
def osPathJoin (a b : String) : String :=
  if pyStartsWith b "/" then b
  else if a = "" || pyEndsWith a "/" then a ++ b
  else a ++ "/" ++ b

/-! ### Filesystem model -/

/-- A filesystem: the set of regular-file paths and the set of directory
paths, as lists of path strings. -/
structure FS where
  files : List String
  dirs : List String
deriving DecidableEq

def FS.isFile (fs : FS) (p : String) : Bool := decide (p ∈ fs.files)

def FS.isDir (fs : FS) (p : String) : Bool := decide (p ∈ fs.dirs)

/-- Writing (creating or truncating) a regular file at path `p`. -/
def FS.writeFile (fs : FS) (p : String) : FS :=
  { fs with files := fs.files.insert p }

/-- Model of `os.remove`: deletes the regular file at path `p`.  In the
script it is only ever applied to paths just returned by `glob.glob`, which
exist, so the missing-file error branch is never reachable and is not
modelled. -/
def FS.removeFile (fs : FS) (p : String) : FS :=
  { fs with files := fs.files.filter (fun q => q ≠ p) }

/-- The chain of parent directories of a path: every proper prefix that ends
just before a `/`, innermost last. -/
def ancestorsAux : List Char → List Char → List (List Char)
  | _, [] => []
  | seen, c :: rest =>
    if c = '/' then seen.reverse :: ancestorsAux (c :: seen) rest
    else ancestorsAux (c :: seen) rest

def ancestors (p : String) : List String :=
  ((ancestorsAux [] p.data).filter (fun l => l ≠ [])).map (fun l => String.mk l)

/-- Model of `os.makedirs`: creates the directory `p` together with every
missing parent directory. -/
def FS.makedirs (fs : FS) (p : String) : FS :=
  { fs with dirs := p :: (ancestors p ++ fs.dirs) }

/-- Errors raised by filesystem operations (`shutil.move` on a missing
source, `shutil.rmtree` on a missing directory). -/
inductive PyError where
  | fileNotFound (path : String)
deriving DecidableEq

/-- Model of `shutil.move` for a regular file: renames `src` to `dst`
(overwriting `dst`), and raises `FileNotFoundError` if `src` is missing. -/
def FS.moveFile (fs : FS) (src dst : String) : Except PyError FS :=
  if decide (src ∈ fs.files) then
    .ok { fs with files := (fs.files.filter (fun q => q ≠ src)).insert dst }
  else .error (.fileNotFound src)

/-- `q` lies strictly inside the directory `p`. -/
def underDir (p q : String) : Bool := pyStartsWith q (p ++ "/")

/-- Model of `shutil.rmtree`: recursively deletes the directory `p` and
everything below it; raises if `p` is not an existing directory. -/
def FS.rmtree (fs : FS) (p : String) : Except PyError FS :=
  if fs.isDir p then
    .ok { files := fs.files.filter (fun q => !underDir p q),
          dirs := fs.dirs.filter (fun q => !(q = p : Bool) && !underDir p q) }
  else .error (.fileNotFound p)

/-- `p` is a path directly inside directory `dir` whose basename (which
must not contain `/`) ends with `ext`. -/
def inDirWithExt (dir ext p : String) : Bool :=
  (dir.data ++ ['/']).isPrefixOf p.data &&
  !(decide ('/' ∈ p.data.drop (dir.data.length + 1))) &&
  ext.data.isSuffixOf (p.data.drop (dir.data.length + 1))

/-- Membership test of a file path `p` in the result of
`glob.glob(os.path.join(dir, "*" ++ ext))`: `p` must be directly inside
`dir` with basename ending in `ext`, and must not be a hidden (dot-leading)
entry, which `*` does not match. -/
def globMatch (dir ext p : String) : Bool :=
  inDirWithExt dir ext p &&
  !(decide ((p.data.drop (dir.data.length + 1)).head? = some '.'))

/-- The files of `fs` returned by `glob.glob(os.path.join(dir, "*" ++ ext))`. -/
def globFiles (fs : FS) (dir ext : String) : List String :=
  fs.files.filter (globMatch dir ext)

/-! ### Run state and external-command environment -/

/-- What actually happens when one external command is executed: its effect
on the filesystem, its combined stdout/stderr text, and its exit status. -/
structure ToolRun where
  effect : FS → FS
  out : String
  status : Int

/-- An environment assigns to every literal shell command the behaviour of
the external process it launches. -/
def Env := String → ToolRun

/-- The observable state of one run: the filesystem, the chunks appended to
the logfile, the messages emitted through the `logging` module (they go to
the console, not to the logfile), the tool output that went to the terminal
when no logfile was given, and the commands handed to `subprocess.call`. -/
structure St where
  fs : FS
  log : List String
  loggingOut : List String
  termOut : List String
  invoked : List String
deriving DecidableEq

/-- Embedding of `run_cmd(cmd, logfile)`: without a logfile the command runs
with its output on the terminal; with a logfile the file is opened in append
mode, the literal command line is written, and the command's combined stdout
and stderr are redirected into the same file.  The exit status returned by
`subprocess.call` is discarded in both branches, exactly as in the source. -/
def runCmd (env : Env) (cmd : String) (logfile : Option String) (st : St) : St :=
  match logfile with
  | none =>
    { st with fs := (env cmd).effect st.fs,
              termOut := st.termOut ++ [(env cmd).out],
              invoked := st.invoked ++ [cmd] }
  | some _ =>
    { st with fs := (env cmd).effect st.fs,
              log := st.log ++ [cmd, (env cmd).out],
              invoked := st.invoked ++ [cmd] }

/-! ### The literal command lines built by the stage adapters -/

def trimCmd (forwardIn reverseIn forwardTrimmed reverseTrimmed : String)
    (threads : Nat) : String :=
  "bbduk.sh in=" ++ forwardIn ++ " in2=" ++ reverseIn ++ " out=" ++ forwardTrimmed ++
    " out2=" ++ reverseTrimmed ++ " ref=adapters trimq=10 qtrim=w minlength=50 threads=" ++
    toString threads

def correctCmd (forwardIn reverseIn forwardCorrected reverseCorrected : String)
    (threads : Nat) : String :=
  "tadpole.sh in=" ++ forwardIn ++ " in2=" ++ reverseIn ++ " out=" ++ forwardCorrected ++
    " out2=" ++ reverseCorrected ++ " mode=correct threads=" ++ toString threads

def assembleCmd (forwardIllumina reverseIllumina pacbio outputDir : String)
    (threads : Nat) : String :=
  "unicycler -1 " ++ forwardIllumina ++ " -2 " ++ reverseIllumina ++ " -l " ++ pacbio ++
    " -o " ++ outputDir ++ " --no_correct -t " ++ toString threads

/-- Embedding of `trim_reads`. -/
def trim_reads (env : Env) (forwardIn reverseIn forwardTrimmed reverseTrimmed : String)
    (threads : Nat) (logfile : Option String) (st : St) : St :=
  runCmd env (trimCmd forwardIn reverseIn forwardTrimmed reverseTrimmed threads) logfile st

/-- Embedding of `correct_reads`. -/
def correct_reads (env : Env) (forwardIn reverseIn forwardCorrected reverseCorrected : String)
    (threads : Nat) (logfile : Option String) (st : St) : St :=
  runCmd env (correctCmd forwardIn reverseIn forwardCorrected reverseCorrected threads) logfile st

/-- Embedding of `assemble`. -/
def assemble (env : Env) (forwardIllumina reverseIllumina pacbio outputDir : String)
    (threads : Nat) (logfile : Option String) (st : St) : St :=
  runCmd env (assembleCmd forwardIllumina reverseIllumina pacbio outputDir threads) logfile st

/-! ### Input validation -/

def missingMsg (p : String) : String :=
  "Your specified input file(s) could not be found! Missing file(s) were: " ++ p

/-- Embedding of `file_check`: reports whether the path is a regular file
and logs an error message naming the path when it is not. -/
def file_check (st : St) (filePath : String) : St × Bool :=
  if st.fs.isFile filePath then (st, true)
  else ({ st with loggingOut := st.loggingOut ++ [missingMsg filePath] }, false)

/-! ### The orchestrator -/

/-- The parameters `main` receives. -/
structure Config where
  forwardIllumina : String
  reverseIllumina : String
  pacbio : String
  outputDir : String
  assemblyName : String
  threads : Nat
  logfile : Option String
  keepFiles : Bool
deriving DecidableEq

/-- `os.path.join(output_dir, assembly_name + '_trimmed_R1.fastq.gz')`. -/
def trimmedForward (outputDir assemblyName : String) : String :=
  osPathJoin outputDir (assemblyName ++ "_trimmed_R1.fastq.gz")

def trimmedReverse (outputDir assemblyName : String) : String :=
  osPathJoin outputDir (assemblyName ++ "_trimmed_R2.fastq.gz")

def correctedForward (outputDir assemblyName : String) : String :=
  osPathJoin outputDir (assemblyName ++ "_corrected_R1.fastq.gz")

def correctedReverse (outputDir assemblyName : String) : String :=
  osPathJoin outputDir (assemblyName ++ "_corrected_R2.fastq.gz")

/-- The fixed-name artifact unicycler writes into the output directory. -/
def assemblyFastaPath (outputDir : String) : String :=
  osPathJoin outputDir "assembly.fasta"

/-- The rename target `os.path.join(output_dir, assembly_name + '.fasta')`. -/
def finalFastaPath (outputDir assemblyName : String) : String :=
  osPathJoin outputDir (assemblyName ++ ".fasta")

/-- `os.path.join(output_dir, 'pilon_polish')`. -/
def pilonPolishPath (outputDir : String) : String :=
  osPathJoin outputDir "pilon_polish"

def pushInfo (st : St) (msg : String) : St :=
  { st with loggingOut := st.loggingOut ++ [msg] }

/-- The `if not os.path.isdir(output_dir): os.makedirs(output_dir)` step. -/
def ensureOutputDir (fs : FS) (d : String) : FS :=
  if fs.isDir d then fs else fs.makedirs d

/-- The three `file_check` calls of `main` and the aggregated
`False in file_presence` test: all three paths are checked (and every
missing one reported) before the verdict. -/
def validate (st : St) (cfg : Config) : St × Bool :=
  let fc1 := file_check st cfg.forwardIllumina
  let fc2 := file_check fc1.1 cfg.reverseIllumina
  let fc3 := file_check fc2.1 cfg.pacbio
  (fc3.1, fc1.2 && fc2.2 && fc3.2)

/-- The middle of `main`: directory creation and the three tool stages with
their informational console messages. -/
def stagePhase (env : Env) (cfg : Config) (st : St) : St :=
  let st1 : St := { st with fs := ensureOutputDir st.fs cfg.outputDir }
  let st2 := pushInfo st1 "Trimming Illumina reads..."
  let st3 := trim_reads env cfg.forwardIllumina cfg.reverseIllumina
    (trimmedForward cfg.outputDir cfg.assemblyName)
    (trimmedReverse cfg.outputDir cfg.assemblyName) cfg.threads cfg.logfile st2
  let st4 := pushInfo st3 "Correcting Illumina reads..."
  let st5 := correct_reads env
    (trimmedForward cfg.outputDir cfg.assemblyName)
    (trimmedReverse cfg.outputDir cfg.assemblyName)
    (correctedForward cfg.outputDir cfg.assemblyName)
    (correctedReverse cfg.outputDir cfg.assemblyName) cfg.threads cfg.logfile st4
  let st6 := pushInfo st5 "Assembling using Unicycler. This will take quite a while..."
  assemble env
    (correctedForward cfg.outputDir cfg.assemblyName)
    (correctedReverse cfg.outputDir cfg.assemblyName)
    cfg.pacbio cfg.outputDir cfg.threads cfg.logfile st6

/-- The `shutil.move` call that renames `assembly.fasta` to
`<assembly_name>.fasta` inside the output directory. -/
def finalizeMove (cfg : Config) (fs : FS) : Except PyError FS :=
  fs.moveFile (assemblyFastaPath cfg.outputDir)
    (finalFastaPath cfg.outputDir cfg.assemblyName)

/-- The two `glob.glob` calls and the `os.remove` loop of the cleanup. -/
def cleanupFiles (fs : FS) (outputDir : String) : FS :=
  let filesToRemove := globFiles fs outputDir ".gfa" ++ globFiles fs outputDir ".fastq.gz"
  filesToRemove.foldl FS.removeFile fs

def doneMsg (cfg : Config) : String :=
  "Hybrid Assembly complete. Assembly file is " ++
    finalFastaPath cfg.outputDir cfg.assemblyName

/-- How a run of `main` can end: `sys.exit`, an uncaught propagating
exception, or normal completion. -/
inductive RunResult where
  | exited (code : Nat) (st : St)
  | fatal (e : PyError) (st : St)
  | ok (st : St)
deriving DecidableEq

/-- The tail of `main`: the rename of the fixed-name assembly, the
conditional cleanup, and the final success message. -/
def finalizePhase (cfg : Config) (st : St) : RunResult :=
  match finalizeMove cfg st.fs with
  | .error e => .fatal e st
  | .ok fs =>
    let st1 : St := { st with fs := fs }
    if cfg.keepFiles then .ok (pushInfo st1 (doneMsg cfg))
    else
      let st2 := pushInfo st1 "Cleaning up Unicycler output files..."
      let st3 : St := { st2 with fs := cleanupFiles st2.fs cfg.outputDir }
      match st3.fs.rmtree (pilonPolishPath cfg.outputDir) with
      | .error e => .fatal e st3
      | .ok fs2 => .ok (pushInfo { st3 with fs := fs2 } (doneMsg cfg))

/-- Embedding of `main`. -/
def main (env : Env) (cfg : Config) (st : St) : RunResult :=
  let v := validate st cfg
  if v.2 then finalizePhase cfg (stagePhase env cfg v.1)
  else .exited 1 v.1

/-- The run state at the moment a run ends, however it ends. -/
def resultSt : RunResult → St
  | .exited _ st => st
  | .fatal _ st => st
  | .ok st => st

/-! ### The nominal behaviour of the external tools

The three tools are outside this repository; the spec documents their
invocation contracts, so their filesystem effects are modelled from the
spec's words. -/

/-- Modelled from the spec: the read trimmer (bbduk.sh, not part of this
repository) writes the two trimmed read files whose paths it was given. -/
def trimEffect (cfg : Config) (fs : FS) : FS :=
  (fs.writeFile (trimmedForward cfg.outputDir cfg.assemblyName)).writeFile
    (trimmedReverse cfg.outputDir cfg.assemblyName)

/-- Modelled from the spec: the read corrector (tadpole.sh, not part of
this repository) writes the two corrected read files whose paths it was
given. -/
def correctEffect (cfg : Config) (fs : FS) : FS :=
  (fs.writeFile (correctedForward cfg.outputDir cfg.assemblyName)).writeFile
    (correctedReverse cfg.outputDir cfg.assemblyName)

/-- Modelled from the spec: the hybrid assembler (unicycler, not part of
this repository) writes into the output directory a fixed-name assembly
file, a graph file, a compressed read copy, and a polishing subdirectory
with its own contents. -/
def unicyclerEffect (cfg : Config) (fs : FS) : FS :=
  let fs1 := fs.writeFile (assemblyFastaPath cfg.outputDir)
  let fs2 := fs1.writeFile (osPathJoin cfg.outputDir "assembly.gfa")
  let fs3 := fs2.writeFile (osPathJoin cfg.outputDir "reads_copy.fastq.gz")
  let fs4 : FS := { fs3 with dirs := fs3.dirs.insert (pilonPolishPath cfg.outputDir) }
  fs4.writeFile (pilonPolishPath cfg.outputDir ++ "/pilon_round1.fasta")

/-- Modelled from the spec: the nominal environment, in which each of the
three commands the pipeline issues behaves as its tool's documented
contract says, and any other command does nothing. -/
def nominalEnv (cfg : Config) : Env := fun c =>
  if c = trimCmd cfg.forwardIllumina cfg.reverseIllumina
      (trimmedForward cfg.outputDir cfg.assemblyName)
      (trimmedReverse cfg.outputDir cfg.assemblyName) cfg.threads then
    { effect := trimEffect cfg, out := "bbduk stdout and stderr", status := 0 }
  else if c = correctCmd (trimmedForward cfg.outputDir cfg.assemblyName)
      (trimmedReverse cfg.outputDir cfg.assemblyName)
      (correctedForward cfg.outputDir cfg.assemblyName)
      (correctedReverse cfg.outputDir cfg.assemblyName) cfg.threads then
    { effect := correctEffect cfg, out := "tadpole stdout and stderr", status := 0 }
  else if c = assembleCmd (correctedForward cfg.outputDir cfg.assemblyName)
      (correctedReverse cfg.outputDir cfg.assemblyName) cfg.pacbio
      cfg.outputDir cfg.threads then
    { effect := unicyclerEffect cfg, out := "unicycler stdout and stderr", status := 0 }
  else { effect := id, out := "", status := 127 }

/-! ### Stage input/output paths, as threaded by the orchestrator -/

/-- The four intermediate read paths `main` derives, in stage order. -/
def derivedReadPaths (outputDir assemblyName : String) : List String :=
  [trimmedForward outputDir assemblyName, trimmedReverse outputDir assemblyName,
   correctedForward outputDir assemblyName, correctedReverse outputDir assemblyName]

/-- The input file paths of the trim stage: the user-supplied reads. -/
def trimStageInputs (cfg : Config) : List String :=
  [cfg.forwardIllumina, cfg.reverseIllumina]

/-- The output file paths the trim stage derives. -/
def trimStageOutputs (cfg : Config) : List String :=
  [trimmedForward cfg.outputDir cfg.assemblyName,
   trimmedReverse cfg.outputDir cfg.assemblyName]

/-- The input file paths of the correct stage: the trimmed reads. -/
def correctStageInputs (cfg : Config) : List String := trimStageOutputs cfg

/-- The output file paths the correct stage derives. -/
def correctStageOutputs (cfg : Config) : List String :=
  [correctedForward cfg.outputDir cfg.assemblyName,
   correctedReverse cfg.outputDir cfg.assemblyName]

/-! ### Concrete fixtures used to evaluate the theorems -/

/-- An environment in which every command succeeds and does nothing. -/
def envZero : Env := fun _ => { effect := id, out := "tool output", status := 0 }

/-- Like `envZero` but every command exits with status 1. -/
def envOne : Env := fun _ => { effect := id, out := "tool output", status := 1 }

/-- An environment in which every command writes `out/assembly.fasta` and
nothing creates a polishing subdirectory. -/
def envNoPilon : Env :=
  fun _ => { effect := fun fs => fs.writeFile (assemblyFastaPath "out"),
             out := "tool output", status := 0 }

/-- An initial state holding just the three input read files. -/
def stFix : St :=
  { fs := { files := ["r1.fastq.gz", "r2.fastq.gz", "pb.fastq.gz"], dirs := [] },
    log := [], loggingOut := [], termOut := [], invoked := [] }

/-- An initial state with an empty filesystem. -/
def stEmpty : St :=
  { fs := { files := [], dirs := [] },
    log := [], loggingOut := [], termOut := [], invoked := [] }

/-- A typical configuration: fresh output directory, no logfile, cleanup on. -/
def cfgFix : Config :=
  { forwardIllumina := "r1.fastq.gz", reverseIllumina := "r2.fastq.gz",
    pacbio := "pb.fastq.gz", outputDir := "out", assemblyName := "test",
    threads := 4, logfile := none, keepFiles := false }

/-- `cfgFix` with a logfile. -/
def cfgFixLog : Config := { cfgFix with logfile := some "run_log.txt" }

/-- `cfgFix` with the keep-files flag set. -/
def cfgKeep : Config := { cfgFix with keepFiles := true }

/-- A state in which the assembler has already produced its outputs. -/
def stAsm : St :=
  { fs := { files := ["out/assembly.fasta", "out/assembly.gfa"], dirs := ["out"] },
    log := [], loggingOut := [], termOut := [], invoked := [] }

/-- A configuration whose forward-read input is exactly the path the trim
stage will derive for its own forward output. -/
def c5cfg : Config :=
  { forwardIllumina := "out/hybrid_assembly_trimmed_R1.fastq.gz",
    reverseIllumina := "r2.fastq.gz", pacbio := "pb.fastq.gz",
    outputDir := "out", assemblyName := "hybrid_assembly",
    threads := 4, logfile := none, keepFiles := false }

/-! ## Toolkit lemmas about strings, paths and lists -/

theorem string_ne_of_data_ne {s t : String} (h : s.data ≠ t.data) : s ≠ t :=
  fun he => h (he ▸ rfl)

theorem ne_of_suffix_unrelated {x y : String} {s t : List Char}
    (hx : s <:+ x.data) (hy : t <:+ y.data)
    (h₁ : ¬ s <:+ t) (h₂ : ¬ t <:+ s) : x ≠ y := by
  intro he
  subst he
  rcases List.suffix_or_suffix_of_suffix hx hy with h | h
  · exact h₁ h
  · exact h₂ h

theorem join_data_factor (a s : String) :
    ∃ l, (osPathJoin a s).data = l ++ s.data := by
  unfold osPathJoin
  split
  · exact ⟨[], rfl⟩
  · split
    · exact ⟨a.data, by simp⟩
    · exact ⟨a.data ++ ['/'], by simp⟩

theorem join_suffix (a s : String) : s.data <:+ (osPathJoin a s).data := by
  obtain ⟨l, hl⟩ := join_data_factor a s
  rw [hl]
  exact List.suffix_append l s.data

theorem suffix_join_appended (a b s : String) :
    s.data <:+ (osPathJoin a (b ++ s)).data := by
  have h1 : s.data <:+ (b ++ s).data := by
    rw [String.data_append]
    exact List.suffix_append _ _
  exact h1.trans (join_suffix a (b ++ s))

theorem joinSuffix_ne (a b : String) {s₁ s₂ : String}
    (h₁ : ¬ s₁.data <:+ s₂.data) (h₂ : ¬ s₂.data <:+ s₁.data) :
    osPathJoin a (b ++ s₁) ≠ osPathJoin a (b ++ s₂) :=
  ne_of_suffix_unrelated (suffix_join_appended a b s₁) (suffix_join_appended a b s₂) h₁ h₂

theorem derivedReadPaths_nodup (o n : String) : (derivedReadPaths o n).Nodup := by
  have h12 : trimmedForward o n ≠ trimmedReverse o n :=
    joinSuffix_ne o n (by decide) (by decide)
  have h13 : trimmedForward o n ≠ correctedForward o n :=
    joinSuffix_ne o n (by decide) (by decide)
  have h14 : trimmedForward o n ≠ correctedReverse o n :=
    joinSuffix_ne o n (by decide) (by decide)
  have h23 : trimmedReverse o n ≠ correctedForward o n :=
    joinSuffix_ne o n (by decide) (by decide)
  have h24 : trimmedReverse o n ≠ correctedReverse o n :=
    joinSuffix_ne o n (by decide) (by decide)
  have h34 : correctedForward o n ≠ correctedReverse o n :=
    joinSuffix_ne o n (by decide) (by decide)
  simp [derivedReadPaths, List.nodup_cons, h12, h13, h14, h23, h24, h34]

/-! ## Claim C7 -/

/-- C7: the four derived intermediate read paths (`<name>_trimmed_R1/_R2`
and `<name>_corrected_R1/_R2` under the output directory) are a
deterministic function of the output directory and the assembly name alone
— two runs with the same parameters derive identical paths — and the four
paths are pairwise distinct. -/
theorem c7_derived_paths_deterministic_and_distinct (o₁ n₁ o₂ n₂ : String)
    (ho : o₁ = o₂) (hn : n₁ = n₂) :
    derivedReadPaths o₁ n₁ = derivedReadPaths o₂ n₂ ∧
    (derivedReadPaths o₁ n₁).Nodup := by
  subst ho
  subst hn
  exact ⟨rfl, derivedReadPaths_nodup o₁ n₁⟩

theorem c7_derived_paths_deterministic_and_distinct_witness :
    derivedReadPaths "out" "test" = derivedReadPaths "out" "test" ∧
    (derivedReadPaths "out" "test").Nodup :=
  c7_derived_paths_deterministic_and_distinct "out" "test" "out" "test" rfl rfl

/-! ## Claim C5 -/

/-- C5 is false as stated: the trim stage's input paths are arbitrary
user-supplied strings, so the user can pass exactly the path the trim stage
derives for its forward output (here `out/hybrid_assembly_trimmed_R1.fastq.gz`
with output directory `out` and assembly name `hybrid_assembly`), and the
stage's derived output path collides with its input path. -/
theorem c5_counterexample :
    trimmedForward c5cfg.outputDir c5cfg.assemblyName ∈ trimStageOutputs c5cfg ∧
    trimmedForward c5cfg.outputDir c5cfg.assemblyName ∈ trimStageInputs c5cfg := by
  decide

/-- C5 (amended): the four derived read paths are pairwise distinct (unique
per stage and across stages), the correct stage's derived output paths are
distinct from its input paths, and the trim stage's derived output paths
are distinct from its user-supplied input paths whenever neither input
equals a derived trimmed path. -/
theorem c5_stage_io_distinct (cfg : Config)
    (hf : cfg.forwardIllumina ∉ trimStageOutputs cfg)
    (hr : cfg.reverseIllumina ∉ trimStageOutputs cfg) :
    (derivedReadPaths cfg.outputDir cfg.assemblyName).Nodup ∧
    (∀ p ∈ correctStageOutputs cfg, p ∉ correctStageInputs cfg) ∧
    (∀ p ∈ trimStageOutputs cfg, p ∉ trimStageInputs cfg) := by
  have h13 : trimmedForward cfg.outputDir cfg.assemblyName ≠
      correctedForward cfg.outputDir cfg.assemblyName :=
    joinSuffix_ne _ _ (by decide) (by decide)
  have h14 : trimmedForward cfg.outputDir cfg.assemblyName ≠
      correctedReverse cfg.outputDir cfg.assemblyName :=
    joinSuffix_ne _ _ (by decide) (by decide)
  have h23 : trimmedReverse cfg.outputDir cfg.assemblyName ≠
      correctedForward cfg.outputDir cfg.assemblyName :=
    joinSuffix_ne _ _ (by decide) (by decide)
  have h24 : trimmedReverse cfg.outputDir cfg.assemblyName ≠
      correctedReverse cfg.outputDir cfg.assemblyName :=
    joinSuffix_ne _ _ (by decide) (by decide)
  refine ⟨derivedReadPaths_nodup _ _, ?_, ?_⟩
  · intro p hp
    simp only [correctStageOutputs, List.mem_cons, List.not_mem_nil, or_false] at hp
    simp only [correctStageInputs, trimStageOutputs, List.mem_cons, List.not_mem_nil,
      or_false, not_or]
    rcases hp with rfl | rfl
    · exact ⟨h13.symm, h23.symm⟩
    · exact ⟨h14.symm, h24.symm⟩
  · intro p hp
    simp only [trimStageOutputs, List.mem_cons, List.not_mem_nil, or_false] at hp hf hr
    simp only [trimStageInputs, List.mem_cons, List.not_mem_nil, or_false, not_or] at hf hr ⊢
    rcases hp with rfl | rfl
    · exact ⟨fun he => hf.1 he.symm, fun he => hr.1 he.symm⟩
    · exact ⟨fun he => hf.2 he.symm, fun he => hr.2 he.symm⟩

theorem c5_stage_io_distinct_witness :
    (derivedReadPaths cfgFix.outputDir cfgFix.assemblyName).Nodup ∧
    correctedForward cfgFix.outputDir cfgFix.assemblyName ∉ correctStageInputs cfgFix ∧
    trimmedForward cfgFix.outputDir cfgFix.assemblyName ∉ trimStageInputs cfgFix :=
  ⟨(c5_stage_io_distinct cfgFix (by decide) (by decide)).1,
   (c5_stage_io_distinct cfgFix (by decide) (by decide)).2.1 _ (by decide),
   (c5_stage_io_distinct cfgFix (by decide) (by decide)).2.2 _ (by decide)⟩

/-! ## Claim C1 -/

/-- C1: whenever at least one of the three required input paths is not an
existing file, `main` exits with status 1; the filesystem is untouched (so
no output directory is created), no external command is invoked, the
logfile is untouched, and an error naming the missing path is emitted for
every missing path — all three paths are checked before exiting. -/
theorem c1_missing_input_aborts (env : Env) (cfg : Config) (st : St)
    (h : ¬(st.fs.isFile cfg.forwardIllumina = true ∧
           st.fs.isFile cfg.reverseIllumina = true ∧
           st.fs.isFile cfg.pacbio = true)) :
    main env cfg st = .exited 1 (validate st cfg).1 ∧
    (validate st cfg).1.fs = st.fs ∧
    (validate st cfg).1.invoked = st.invoked ∧
    (validate st cfg).1.log = st.log ∧
    (st.fs.isFile cfg.forwardIllumina = false →
      missingMsg cfg.forwardIllumina ∈ (validate st cfg).1.loggingOut) ∧
    (st.fs.isFile cfg.reverseIllumina = false →
      missingMsg cfg.reverseIllumina ∈ (validate st cfg).1.loggingOut) ∧
    (st.fs.isFile cfg.pacbio = false →
      missingMsg cfg.pacbio ∈ (validate st cfg).1.loggingOut) := by
  cases hf : st.fs.isFile cfg.forwardIllumina <;>
    cases hr : st.fs.isFile cfg.reverseIllumina <;>
      cases hp : st.fs.isFile cfg.pacbio <;>
        simp_all [main, validate, file_check]

theorem c1_missing_input_aborts_witness :
    main envZero cfgFix stEmpty = .exited 1 (validate stEmpty cfgFix).1 ∧
    (validate stEmpty cfgFix).1.fs = stEmpty.fs ∧
    (validate stEmpty cfgFix).1.invoked = stEmpty.invoked ∧
    missingMsg cfgFix.forwardIllumina ∈ (validate stEmpty cfgFix).1.loggingOut ∧
    missingMsg cfgFix.reverseIllumina ∈ (validate stEmpty cfgFix).1.loggingOut ∧
    missingMsg cfgFix.pacbio ∈ (validate stEmpty cfgFix).1.loggingOut :=
  have h := c1_missing_input_aborts envZero cfgFix stEmpty (by decide)
  ⟨h.1, h.2.1, h.2.2.1, h.2.2.2.2.1 (by decide), h.2.2.2.2.2.1 (by decide),
   h.2.2.2.2.2.2 (by decide)⟩

/-! ## Claim C4 -/

/-- C4: `run_cmd` never inspects or acts on the executed command's exit
status: two environments that agree on every command's filesystem effect
and output text, but may return arbitrarily different exit statuses, give
identical `run_cmd` results, and the whole orchestrated run behaves
identically — every stage still runs, whatever the previous stage's exit
status was. -/
theorem c4_exit_status_ignored (env₁ env₂ : Env)
    (heff : ∀ c, (env₁ c).effect = (env₂ c).effect)
    (hout : ∀ c, (env₁ c).out = (env₂ c).out) :
    (∀ cmd logfile st, runCmd env₁ cmd logfile st = runCmd env₂ cmd logfile st) ∧
    (∀ cfg st, main env₁ cfg st = main env₂ cfg st) := by
  have hrc : ∀ cmd logfile st, runCmd env₁ cmd logfile st = runCmd env₂ cmd logfile st := by
    intro cmd logfile st
    cases logfile <;> simp [runCmd, heff, hout]
  refine ⟨hrc, ?_⟩
  intro cfg st
  unfold main stagePhase trim_reads correct_reads assemble
  simp only [hrc]

theorem c4_exit_status_ignored_witness :
    runCmd envZero "bbduk.sh" none stFix = runCmd envOne "bbduk.sh" none stFix ∧
    main envZero cfgFix stFix = main envOne cfgFix stFix :=
  have h := c4_exit_status_ignored envZero envOne (fun _ => rfl) (fun _ => rfl)
  ⟨h.1 "bbduk.sh" none stFix, h.2 cfgFix stFix⟩

/-! ## Claim C8 -/

/-- C8: the EnsureOutputDir step is idempotent: when the output directory
already exists nothing errors and nothing at all is altered; when it is
absent it is created together with every missing parent directory; and
running the step twice gives the same state as running it once. -/
theorem c8_ensure_output_dir (fs : FS) (d : String) :
    (fs.isDir d = true → ensureOutputDir fs d = fs) ∧
    (fs.isDir d = false →
      (ensureOutputDir fs d).files = fs.files ∧
      (ensureOutputDir fs d).isDir d = true ∧
      ∀ p ∈ ancestors d, (ensureOutputDir fs d).isDir p = true) ∧
    ensureOutputDir (ensureOutputDir fs d) d = ensureOutputDir fs d := by
  refine ⟨?_, ?_, ?_⟩
  · intro h
    simp [ensureOutputDir, h]
  · intro h
    have h2 : d ∉ fs.dirs := by simpa [FS.isDir] using h
    refine ⟨?_, ?_, ?_⟩
    · simp [ensureOutputDir, FS.isDir, h2, FS.makedirs]
    · simp [ensureOutputDir, FS.isDir, h2, FS.makedirs]
    · intro p hp
      simp only [ensureOutputDir, FS.isDir, h2, decide_False, Bool.false_eq_true, if_false,
        FS.makedirs, decide_eq_true_eq, List.mem_cons, List.mem_append]
      exact Or.inr (Or.inl hp)
  · by_cases h : fs.isDir d = true
    · simp [ensureOutputDir, h]
    · have h' : fs.isDir d = false := by simpa using h
      have hmk : (fs.makedirs d).isDir d = true := by
        simp [FS.makedirs, FS.isDir]
      simp [ensureOutputDir, h', hmk]

theorem c8_ensure_output_dir_witness :
    ensureOutputDir (FS.mk [] ["out"]) "out" = FS.mk [] ["out"] ∧
    (ensureOutputDir (FS.mk [] []) "a/b").isDir "a/b" = true ∧
    (ensureOutputDir (FS.mk [] []) "a/b").isDir "a" = true ∧
    ensureOutputDir (ensureOutputDir (FS.mk [] []) "out") "out" =
      ensureOutputDir (FS.mk [] []) "out" :=
  ⟨(c8_ensure_output_dir (FS.mk [] ["out"]) "out").1 (by decide),
   ((c8_ensure_output_dir (FS.mk [] []) "a/b").2.1 (by decide)).2.1,
   ((c8_ensure_output_dir (FS.mk [] []) "a/b").2.1 (by decide)).2.2 "a" (by decide),
   (c8_ensure_output_dir (FS.mk [] []) "out").2.2⟩

/-! ## Claim C3 -/

/-- C3: Finalize moves the assembler's fixed-name output `assembly.fasta`
out of the output directory to `<output_dir>/<assembly_name>.fasta`: when
the fixed-name file is present the rename succeeds, afterwards the target
exists, the source is gone, and no other file is touched; when the
fixed-name file is absent after the assemble stage the step raises an
uncaught propagating error, so the whole run ends fatally rather than the
step being silently skipped. -/
theorem c3_finalize_move (cfg : Config) :
    (∀ fs : FS, assemblyFastaPath cfg.outputDir ∉ fs.files →
      finalizeMove cfg fs =
        .error (.fileNotFound (assemblyFastaPath cfg.outputDir))) ∧
    (∀ fs fs' : FS, assemblyFastaPath cfg.outputDir ∈ fs.files →
      finalizeMove cfg fs = .ok fs' →
      finalFastaPath cfg.outputDir cfg.assemblyName ∈ fs'.files ∧
      (assemblyFastaPath cfg.outputDir ≠ finalFastaPath cfg.outputDir cfg.assemblyName →
        assemblyFastaPath cfg.outputDir ∉ fs'.files) ∧
      (∀ p, p ≠ assemblyFastaPath cfg.outputDir →
        p ≠ finalFastaPath cfg.outputDir cfg.assemblyName →
        (p ∈ fs'.files ↔ p ∈ fs.files)) ∧
      fs'.dirs = fs.dirs) ∧
    (∀ fs : FS, ∀ e : PyError, assemblyFastaPath cfg.outputDir ∈ fs.files →
      finalizeMove cfg fs ≠ .error e) ∧
    (∀ env st, (validate st cfg).2 = true →
      assemblyFastaPath cfg.outputDir ∉ (stagePhase env cfg (validate st cfg).1).fs.files →
      main env cfg st =
        .fatal (.fileNotFound (assemblyFastaPath cfg.outputDir))
          (stagePhase env cfg (validate st cfg).1)) := by
  have hmiss : ∀ fs : FS, assemblyFastaPath cfg.outputDir ∉ fs.files →
      finalizeMove cfg fs = .error (.fileNotFound (assemblyFastaPath cfg.outputDir)) := by
    intro fs h
    simp [finalizeMove, FS.moveFile, h]
  refine ⟨hmiss, ?_, ?_, ?_⟩
  · intro fs fs' h he
    simp only [finalizeMove, FS.moveFile, h, decide_True, if_true, Except.ok.injEq] at he
    subst he
    refine ⟨?_, ?_, ?_, rfl⟩
    · simp [List.mem_insert_iff]
    · intro hne hmem
      simp only [List.mem_insert_iff, List.mem_filter, decide_eq_true_eq] at hmem
      rcases hmem with h1 | h1
      · exact hne h1
      · exact h1.2 rfl
    · intro p hp1 hp2
      simp [List.mem_insert_iff, List.mem_filter, hp1, hp2]
  · intro fs e h
    simp [finalizeMove, FS.moveFile, h]
  · intro env st hval hnofile
    unfold main
    simp only [hval, if_true]
    simp [finalizePhase, hmiss _ hnofile]

theorem c3_finalize_move_witness :
    finalizeMove cfgFix (FS.mk [] []) =
      .error (.fileNotFound (assemblyFastaPath cfgFix.outputDir)) ∧
    finalFastaPath cfgFix.outputDir cfgFix.assemblyName ∈
      (FS.mk ["out/test.fasta"] []).files ∧
    assemblyFastaPath cfgFix.outputDir ∉ (FS.mk ["out/test.fasta"] []).files ∧
    finalizeMove cfgFix (FS.mk ["out/assembly.fasta"] []) ≠
      .error (.fileNotFound (assemblyFastaPath cfgFix.outputDir)) ∧
    main envZero cfgFix stFix =
      .fatal (.fileNotFound (assemblyFastaPath cfgFix.outputDir))
        (stagePhase envZero cfgFix (validate stFix cfgFix).1) :=
  have h := c3_finalize_move cfgFix
  ⟨h.1 (FS.mk [] []) (by decide),
   (h.2.1 (FS.mk ["out/assembly.fasta"] []) (FS.mk ["out/test.fasta"] [])
     (by decide) (by rfl)).1,
   (h.2.1 (FS.mk ["out/assembly.fasta"] []) (FS.mk ["out/test.fasta"] [])
     (by decide) (by rfl)).2.1 (by decide),
   h.2.2.1 (FS.mk ["out/assembly.fasta"] []) (PyError.fileNotFound (assemblyFastaPath cfgFix.outputDir)) (by decide),
   h.2.2.2 envZero stFix (by decide) (by decide)⟩

/-! ## Claim C6 -/

theorem validate_true_eq (st : St) (cfg : Config)
    (hval : (validate st cfg).2 = true) : (validate st cfg).1 = st := by
  cases hf : st.fs.isFile cfg.forwardIllumina <;>
    cases hr : st.fs.isFile cfg.reverseIllumina <;>
      cases hp : st.fs.isFile cfg.pacbio <;>
        simp_all [validate, file_check]

theorem resultSt_finalizePhase_log (cfg : Config) (st' : St) :
    (resultSt (finalizePhase cfg st')).log = st'.log := by
  unfold finalizePhase
  split
  · rfl
  · split
    · rfl
    · dsimp only
      split
      · rfl
      · rfl

theorem stagePhase_log (env : Env) (cfg : Config) (st : St) (lf : String)
    (hlf : cfg.logfile = some lf) :
    (stagePhase env cfg st).log =
      st.log ++
        [trimCmd cfg.forwardIllumina cfg.reverseIllumina
           (trimmedForward cfg.outputDir cfg.assemblyName)
           (trimmedReverse cfg.outputDir cfg.assemblyName) cfg.threads,
         (env (trimCmd cfg.forwardIllumina cfg.reverseIllumina
           (trimmedForward cfg.outputDir cfg.assemblyName)
           (trimmedReverse cfg.outputDir cfg.assemblyName) cfg.threads)).out,
         correctCmd (trimmedForward cfg.outputDir cfg.assemblyName)
           (trimmedReverse cfg.outputDir cfg.assemblyName)
           (correctedForward cfg.outputDir cfg.assemblyName)
           (correctedReverse cfg.outputDir cfg.assemblyName) cfg.threads,
         (env (correctCmd (trimmedForward cfg.outputDir cfg.assemblyName)
           (trimmedReverse cfg.outputDir cfg.assemblyName)
           (correctedForward cfg.outputDir cfg.assemblyName)
           (correctedReverse cfg.outputDir cfg.assemblyName) cfg.threads)).out,
         assembleCmd (correctedForward cfg.outputDir cfg.assemblyName)
           (correctedReverse cfg.outputDir cfg.assemblyName)
           cfg.pacbio cfg.outputDir cfg.threads,
         (env (assembleCmd (correctedForward cfg.outputDir cfg.assemblyName)
           (correctedReverse cfg.outputDir cfg.assemblyName)
           cfg.pacbio cfg.outputDir cfg.threads)).out] := by
  simp [stagePhase, trim_reads, correct_reads, assemble, runCmd, pushInfo, hlf]

/-- C6: when a log path is given, `run_cmd` appends to the log (the prior
contents stay as a prefix, so repeated invocations never truncate), writing
first the literal command line invoked and then that command's combined
stdout/stderr; consequently over a full validated run the log gains exactly
the three literal command lines in stage order — trim, correct, assemble —
each immediately followed by its command's own output. -/
theorem c6_logfile_append_order (env : Env) (cfg : Config) (st : St) (lf : String)
    (hlf : cfg.logfile = some lf)
    (hval : (validate st cfg).2 = true) :
    (∀ cmd st', runCmd env cmd (some lf) st' =
      { st' with fs := (env cmd).effect st'.fs,
                 log := st'.log ++ [cmd, (env cmd).out],
                 invoked := st'.invoked ++ [cmd] }) ∧
    (resultSt (main env cfg st)).log =
      st.log ++
        [trimCmd cfg.forwardIllumina cfg.reverseIllumina
           (trimmedForward cfg.outputDir cfg.assemblyName)
           (trimmedReverse cfg.outputDir cfg.assemblyName) cfg.threads,
         (env (trimCmd cfg.forwardIllumina cfg.reverseIllumina
           (trimmedForward cfg.outputDir cfg.assemblyName)
           (trimmedReverse cfg.outputDir cfg.assemblyName) cfg.threads)).out,
         correctCmd (trimmedForward cfg.outputDir cfg.assemblyName)
           (trimmedReverse cfg.outputDir cfg.assemblyName)
           (correctedForward cfg.outputDir cfg.assemblyName)
           (correctedReverse cfg.outputDir cfg.assemblyName) cfg.threads,
         (env (correctCmd (trimmedForward cfg.outputDir cfg.assemblyName)
           (trimmedReverse cfg.outputDir cfg.assemblyName)
           (correctedForward cfg.outputDir cfg.assemblyName)
           (correctedReverse cfg.outputDir cfg.assemblyName) cfg.threads)).out,
         assembleCmd (correctedForward cfg.outputDir cfg.assemblyName)
           (correctedReverse cfg.outputDir cfg.assemblyName)
           cfg.pacbio cfg.outputDir cfg.threads,
         (env (assembleCmd (correctedForward cfg.outputDir cfg.assemblyName)
           (correctedReverse cfg.outputDir cfg.assemblyName)
           cfg.pacbio cfg.outputDir cfg.threads)).out] := by
  constructor
  · intro cmd st'
    simp [runCmd]
  · unfold main
    simp only [hval, if_true]
    rw [resultSt_finalizePhase_log, stagePhase_log env cfg _ lf hlf,
      validate_true_eq st cfg hval]

theorem c6_logfile_append_order_witness :
    runCmd envZero "some command" (some "run_log.txt") stFix =
      { stFix with fs := (envZero "some command").effect stFix.fs,
                   log := stFix.log ++ ["some command", (envZero "some command").out],
                   invoked := stFix.invoked ++ ["some command"] } ∧
    (resultSt (main envZero cfgFixLog stFix)).log =
      stFix.log ++
        [trimCmd cfgFixLog.forwardIllumina cfgFixLog.reverseIllumina
           (trimmedForward cfgFixLog.outputDir cfgFixLog.assemblyName)
           (trimmedReverse cfgFixLog.outputDir cfgFixLog.assemblyName) cfgFixLog.threads,
         (envZero (trimCmd cfgFixLog.forwardIllumina cfgFixLog.reverseIllumina
           (trimmedForward cfgFixLog.outputDir cfgFixLog.assemblyName)
           (trimmedReverse cfgFixLog.outputDir cfgFixLog.assemblyName) cfgFixLog.threads)).out,
         correctCmd (trimmedForward cfgFixLog.outputDir cfgFixLog.assemblyName)
           (trimmedReverse cfgFixLog.outputDir cfgFixLog.assemblyName)
           (correctedForward cfgFixLog.outputDir cfgFixLog.assemblyName)
           (correctedReverse cfgFixLog.outputDir cfgFixLog.assemblyName) cfgFixLog.threads,
         (envZero (correctCmd (trimmedForward cfgFixLog.outputDir cfgFixLog.assemblyName)
           (trimmedReverse cfgFixLog.outputDir cfgFixLog.assemblyName)
           (correctedForward cfgFixLog.outputDir cfgFixLog.assemblyName)
           (correctedReverse cfgFixLog.outputDir cfgFixLog.assemblyName) cfgFixLog.threads)).out,
         assembleCmd (correctedForward cfgFixLog.outputDir cfgFixLog.assemblyName)
           (correctedReverse cfgFixLog.outputDir cfgFixLog.assemblyName)
           cfgFixLog.pacbio cfgFixLog.outputDir cfgFixLog.threads,
         (envZero (assembleCmd (correctedForward cfgFixLog.outputDir cfgFixLog.assemblyName)
           (correctedReverse cfgFixLog.outputDir cfgFixLog.assemblyName)
           cfgFixLog.pacbio cfgFixLog.outputDir cfgFixLog.threads)).out] :=
  have h := c6_logfile_append_order envZero cfgFixLog stFix "run_log.txt" rfl (by decide)
  ⟨h.1 "some command" stFix, h.2⟩

/-! ## Cleanup-step lemmas -/

theorem foldl_removeFile_files (L : List String) (fs : FS) :
    (L.foldl FS.removeFile fs).files = fs.files.filter (fun p => decide (p ∉ L)) := by
  induction L generalizing fs with
  | nil => simp
  | cons a t ih =>
    rw [List.foldl_cons, ih]
    simp only [FS.removeFile, List.filter_filter]
    apply List.filter_congr
    intro x _
    by_cases hxa : x = a <;> by_cases hxt : x ∈ t <;> simp [hxa, hxt]

theorem foldl_removeFile_dirs (L : List String) (fs : FS) :
    (L.foldl FS.removeFile fs).dirs = fs.dirs := by
  induction L generalizing fs with
  | nil => rfl
  | cons a t ih =>
    rw [List.foldl_cons, ih]
    rfl

theorem cleanupFiles_files (fs : FS) (out : String) :
    (cleanupFiles fs out).files =
      fs.files.filter
        (fun p => !(globMatch out ".gfa" p || globMatch out ".fastq.gz" p)) := by
  unfold cleanupFiles
  rw [foldl_removeFile_files]
  apply List.filter_congr
  intro x hx
  simp only [globFiles, List.mem_append, List.mem_filter, hx, true_and, not_or]
  cases h1 : globMatch out ".gfa" x <;> cases h2 : globMatch out ".fastq.gz" x <;>
    simp [h1, h2]

theorem cleanupFiles_dirs (fs : FS) (out : String) :
    (cleanupFiles fs out).dirs = fs.dirs :=
  foldl_removeFile_dirs _ _

/-! ## More toolkit lemmas: glob matching and first characters -/

theorem glob_match_suffix {d e p : String} (h : globMatch d e p = true) :
    e.data <:+ p.data := by
  have h2 : e.data.isSuffixOf (p.data.drop (d.data.length + 1)) = true := by
    unfold globMatch inDirWithExt at h
    simp only [Bool.and_eq_true] at h
    exact h.1.2
  exact (List.isSuffixOf_iff_suffix.1 h2).trans (List.drop_suffix _ _)

theorem inDir_suffix {d e p : String} (h : inDirWithExt d e p = true) :
    e.data <:+ p.data := by
  have h2 : e.data.isSuffixOf (p.data.drop (d.data.length + 1)) = true := by
    unfold inDirWithExt at h
    simp only [Bool.and_eq_true] at h
    exact h.2
  exact (List.isSuffixOf_iff_suffix.1 h2).trans (List.drop_suffix _ _)

theorem not_inDir_of_suffix {d e p q : String}
    (hq : q.data <:+ p.data) (h₁ : ¬ e.data <:+ q.data) (h₂ : ¬ q.data <:+ e.data) :
    inDirWithExt d e p = false := by
  cases hgb : inDirWithExt d e p
  · rfl
  · exfalso
    have he := inDir_suffix hgb
    rcases List.suffix_or_suffix_of_suffix he hq with h | h
    · exact h₁ h
    · exact h₂ h

theorem not_glob_of_suffix {d e p q : String}
    (hq : q.data <:+ p.data) (h₁ : ¬ e.data <:+ q.data) (h₂ : ¬ q.data <:+ e.data) :
    globMatch d e p = false := by
  cases hgb : globMatch d e p
  · rfl
  · exfalso
    have he := glob_match_suffix hgb
    rcases List.suffix_or_suffix_of_suffix he hq with h | h
    · exact h₁ h
    · exact h₂ h

theorem head_data_append {s : String} (t : String) {c : Char}
    (h : s.data.head? = some c) : (s ++ t).data.head? = some c := by
  rw [String.data_append, List.head?_append, h]
  rfl

theorem string_head_ne {s t : String} (h : s.data.head? ≠ t.data.head?) : s ≠ t :=
  fun he => h (he ▸ rfl)

theorem doneMsg_head (cfg : Config) : (doneMsg cfg).data.head? = some 'H' := by
  unfold doneMsg
  exact head_data_append _ (by decide)

/-! ## Toolkit lemmas about `os.path.join` normal forms -/

theorem osPathJoin_norm {a : String} (b : String) (ha : a ≠ "")
    (ha2 : pyEndsWith a "/" = false) (hb : pyStartsWith b "/" = false) :
    osPathJoin a b = a ++ "/" ++ b := by
  unfold osPathJoin
  simp [ha, ha2, hb]

theorem mem_of_pyStartsWith {s p : String} (h : pyStartsWith s p = true) {c : Char}
    (hc : c ∈ p.data) : c ∈ s.data := by
  unfold pyStartsWith at h
  exact (List.isPrefixOf_iff_prefix.1 h).subset hc

theorem not_startsWith_slash_append {n : String} (s : String) (hn : '/' ∉ n.data)
    (hs : '/' ∉ s.data) : pyStartsWith (n ++ s) "/" = false := by
  cases hb : pyStartsWith (n ++ s) "/"
  · rfl
  · exfalso
    have hmem := mem_of_pyStartsWith hb (show '/' ∈ ("/" : String).data by decide)
    rw [String.data_append] at hmem
    rcases List.mem_append.1 hmem with h | h
    · exact hn h
    · exact hs h

theorem head_append_ne_dot {n s : String} (hn : n.data.head? ≠ some '.')
    (hs : s.data.head? ≠ some '.') : (n ++ s).data.head? ≠ some '.' := by
  rw [String.data_append, List.head?_append]
  cases hh : n.data.head? with
  | none => simpa using hs
  | some c =>
    intro he
    apply hn
    rw [hh]
    simpa using he

theorem ext_suffix_append {n s e : String} (h : e.data <:+ s.data) :
    e.data <:+ (n ++ s).data := by
  rw [String.data_append]
  exact h.trans (List.suffix_append _ _)

theorem not_inDir_of_not_under {out x : String} (ext : String)
    (h : pyStartsWith x (out ++ "/") = false) : inDirWithExt out ext x = false := by
  have h2 : (out.data ++ ['/']).isPrefixOf x.data = false := by
    unfold pyStartsWith at h
    rw [String.data_append] at h
    exact h
  unfold inDirWithExt
  simp [h2]

theorem not_glob_of_not_under {out x : String} (ext : String)
    (h : pyStartsWith x (out ++ "/") = false) : globMatch out ext x = false := by
  unfold globMatch
  rw [not_inDir_of_not_under ext h]
  rfl

theorem pyStartsWith_trans_pre {x p q : String} (h : pyStartsWith x q = true)
    (hpq : p.data <+: q.data) : pyStartsWith x p = true := by
  unfold pyStartsWith at h ⊢
  exact List.isPrefixOf_iff_prefix.2 (hpq.trans (List.isPrefixOf_iff_prefix.1 h))

theorem startsWith_dir (out b : String) :
    pyStartsWith (out ++ "/" ++ b) (out ++ "/") = true := by
  unfold pyStartsWith
  rw [String.data_append]
  exact List.isPrefixOf_iff_prefix.2 (List.prefix_append _ _)

theorem underDir_self_append (p lit : String) (h : ("/" : String).data <+: lit.data) :
    underDir p (p ++ lit) = true := by
  unfold underDir pyStartsWith
  rw [String.data_append, String.data_append]
  exact List.isPrefixOf_iff_prefix.2 ((List.prefix_append_right_inj p.data).2 h)

theorem not_under_of_no_slash {out x y : String} (hx : '/' ∉ x.data) :
    underDir (out ++ "/" ++ y) (out ++ "/" ++ x) = false := by
  cases hb : underDir (out ++ "/" ++ y) (out ++ "/" ++ x)
  · rfl
  · exfalso
    unfold underDir pyStartsWith at hb
    have hpre := List.isPrefixOf_iff_prefix.1 hb
    rw [show ((out ++ "/" ++ y) ++ "/").data =
        (out.data ++ ['/']) ++ (y.data ++ ['/']) by simp,
      show (out ++ "/" ++ x).data = (out.data ++ ['/']) ++ x.data by simp] at hpre
    have hyx := (List.prefix_append_right_inj (out.data ++ ['/'])).1 hpre
    exact hx (hyx.subset (by simp))

theorem ensureOutputDir_files (fs : FS) (d : String) :
    (ensureOutputDir fs d).files = fs.files := by
  unfold ensureOutputDir
  split
  · rfl
  · rfl

theorem inDirWithExt_join {out : String} (b ext : String) (hout1 : out ≠ "")
    (hout2 : pyEndsWith out "/" = false) (hb0 : pyStartsWith b "/" = false)
    (hb1 : '/' ∉ b.data) (hbe : ext.data <:+ b.data) :
    inDirWithExt out ext (osPathJoin out b) = true := by
  rw [osPathJoin_norm b hout1 hout2 hb0]
  unfold inDirWithExt
  rw [show (out ++ "/" ++ b).data = (out.data ++ ['/']) ++ b.data by simp]
  rw [List.drop_left' (by simp)]
  simp [List.isPrefixOf_iff_prefix, List.prefix_append, hb1,
    List.isSuffixOf_iff_suffix, hbe]

theorem globMatch_join {out : String} (b ext : String) (hout1 : out ≠ "")
    (hout2 : pyEndsWith out "/" = false) (hb0 : pyStartsWith b "/" = false)
    (hb1 : '/' ∉ b.data) (hb2 : b.data.head? ≠ some '.')
    (hbe : ext.data <:+ b.data) :
    globMatch out ext (osPathJoin out b) = true := by
  unfold globMatch
  rw [inDirWithExt_join b ext hout1 hout2 hb0 hb1 hbe]
  rw [osPathJoin_norm b hout1 hout2 hb0]
  rw [show (out ++ "/" ++ b).data = (out.data ++ ['/']) ++ b.data by simp]
  rw [List.drop_left' (by simp)]
  simp [hb2]

/-! ## Distinguishing the three command lines, and the nominal environment -/

theorem trimCmd_head (a b c d : String) (t : Nat) :
    (trimCmd a b c d t).data.head? = some 'b' := by
  unfold trimCmd
  repeat apply head_data_append
  decide

theorem correctCmd_head (a b c d : String) (t : Nat) :
    (correctCmd a b c d t).data.head? = some 't' := by
  unfold correctCmd
  repeat apply head_data_append
  decide

theorem assembleCmd_head (a b c d : String) (t : Nat) :
    (assembleCmd a b c d t).data.head? = some 'u' := by
  unfold assembleCmd
  repeat apply head_data_append
  decide

theorem correctCmd_ne_trimCmd (a b c d : String) (t : Nat)
    (a' b' c' d' : String) (t' : Nat) :
    correctCmd a b c d t ≠ trimCmd a' b' c' d' t' :=
  string_head_ne (by rw [correctCmd_head, trimCmd_head]; decide)

theorem assembleCmd_ne_trimCmd (a b c d : String) (t : Nat)
    (a' b' c' d' : String) (t' : Nat) :
    assembleCmd a b c d t ≠ trimCmd a' b' c' d' t' :=
  string_head_ne (by rw [assembleCmd_head, trimCmd_head]; decide)

theorem assembleCmd_ne_correctCmd (a b c d : String) (t : Nat)
    (a' b' c' d' : String) (t' : Nat) :
    assembleCmd a b c d t ≠ correctCmd a' b' c' d' t' :=
  string_head_ne (by rw [assembleCmd_head, correctCmd_head]; decide)

theorem nominalEnv_trim (cfg : Config) :
    nominalEnv cfg (trimCmd cfg.forwardIllumina cfg.reverseIllumina
      (trimmedForward cfg.outputDir cfg.assemblyName)
      (trimmedReverse cfg.outputDir cfg.assemblyName) cfg.threads) =
    { effect := trimEffect cfg, out := "bbduk stdout and stderr", status := 0 } := by
  simp [nominalEnv]

theorem nominalEnv_correct (cfg : Config) :
    nominalEnv cfg (correctCmd (trimmedForward cfg.outputDir cfg.assemblyName)
      (trimmedReverse cfg.outputDir cfg.assemblyName)
      (correctedForward cfg.outputDir cfg.assemblyName)
      (correctedReverse cfg.outputDir cfg.assemblyName) cfg.threads) =
    { effect := correctEffect cfg, out := "tadpole stdout and stderr", status := 0 } := by
  have h1 := correctCmd_ne_trimCmd (trimmedForward cfg.outputDir cfg.assemblyName)
    (trimmedReverse cfg.outputDir cfg.assemblyName)
    (correctedForward cfg.outputDir cfg.assemblyName)
    (correctedReverse cfg.outputDir cfg.assemblyName) cfg.threads
    cfg.forwardIllumina cfg.reverseIllumina
    (trimmedForward cfg.outputDir cfg.assemblyName)
    (trimmedReverse cfg.outputDir cfg.assemblyName) cfg.threads
  simp [nominalEnv, h1]

theorem nominalEnv_assemble (cfg : Config) :
    nominalEnv cfg (assembleCmd (correctedForward cfg.outputDir cfg.assemblyName)
      (correctedReverse cfg.outputDir cfg.assemblyName)
      cfg.pacbio cfg.outputDir cfg.threads) =
    { effect := unicyclerEffect cfg, out := "unicycler stdout and stderr", status := 0 } := by
  have h1 := assembleCmd_ne_trimCmd (correctedForward cfg.outputDir cfg.assemblyName)
    (correctedReverse cfg.outputDir cfg.assemblyName) cfg.pacbio cfg.outputDir cfg.threads
    cfg.forwardIllumina cfg.reverseIllumina
    (trimmedForward cfg.outputDir cfg.assemblyName)
    (trimmedReverse cfg.outputDir cfg.assemblyName) cfg.threads
  have h2 := assembleCmd_ne_correctCmd (correctedForward cfg.outputDir cfg.assemblyName)
    (correctedReverse cfg.outputDir cfg.assemblyName) cfg.pacbio cfg.outputDir cfg.threads
    (trimmedForward cfg.outputDir cfg.assemblyName)
    (trimmedReverse cfg.outputDir cfg.assemblyName)
    (correctedForward cfg.outputDir cfg.assemblyName)
    (correctedReverse cfg.outputDir cfg.assemblyName) cfg.threads
  simp [nominalEnv, h1, h2]

theorem stagePhase_nominal_fs (cfg : Config) (st : St) :
    (stagePhase (nominalEnv cfg) cfg st).fs =
      unicyclerEffect cfg (correctEffect cfg (trimEffect cfg
        (ensureOutputDir st.fs cfg.outputDir))) := by
  cases hl : cfg.logfile <;>
    simp [stagePhase, trim_reads, correct_reads, assemble, runCmd, pushInfo, hl,
      nominalEnv_trim, nominalEnv_correct, nominalEnv_assemble]

/-! ## Characterizations of the filesystem operations -/

theorem no_slash_append {n : String} (s : String) (hn : '/' ∉ n.data)
    (hs : '/' ∉ s.data) : '/' ∉ (n ++ s).data := by
  rw [String.data_append]
  intro hmem
  rcases List.mem_append.1 hmem with h | h
  · exact hn h
  · exact hs h

theorem moveFile_ok_char (fs fs2 : FS) (src dst : String)
    (h : FS.moveFile fs src dst = .ok fs2) :
    (∀ q, q ∈ fs2.files ↔ (q = dst ∨ (q ∈ fs.files ∧ q ≠ src))) ∧
    fs2.dirs = fs.dirs := by
  unfold FS.moveFile at h
  by_cases hs : src ∈ fs.files
  · simp only [hs, decide_True, if_true, Except.ok.injEq] at h
    subst h
    constructor
    · intro q
      simp [List.mem_insert_iff, List.mem_filter]
    · rfl
  · simp [hs] at h

theorem moveFile_ok_exists (fs : FS) (src dst : String) (hs : src ∈ fs.files) :
    ∃ fs2, FS.moveFile fs src dst = .ok fs2 :=
  ⟨{ fs with files := (fs.files.filter (fun q => q ≠ src)).insert dst },
   by unfold FS.moveFile; simp [hs]⟩

theorem rmtree_ok_char (fs fs2 : FS) (p : String) (h : FS.rmtree fs p = .ok fs2) :
    (∀ q, q ∈ fs2.files ↔ (q ∈ fs.files ∧ underDir p q = false)) ∧
    (∀ q, q ∈ fs2.dirs ↔ (q ∈ fs.dirs ∧ q ≠ p ∧ underDir p q = false)) := by
  unfold FS.rmtree at h
  by_cases hd : fs.isDir p = true
  · simp only [hd, if_true, Except.ok.injEq] at h
    subst h
    constructor
    · intro q
      cases hu : underDir p q <;> simp [List.mem_filter, hu]
    · intro q
      cases hu : underDir p q <;> by_cases hq : q = p <;>
        simp [List.mem_filter, hu, hq]
  · simp [hd] at h

theorem rmtree_ok_exists (fs : FS) (p : String) (hd : fs.isDir p = true) :
    ∃ fs2, FS.rmtree fs p = .ok fs2 :=
  ⟨{ files := fs.files.filter (fun q => !underDir p q),
     dirs := fs.dirs.filter (fun q => !(q = p : Bool) && !underDir p q) },
   by unfold FS.rmtree; simp [hd]⟩

theorem cleanupFiles_mem (fs : FS) (out q : String) :
    q ∈ (cleanupFiles fs out).files ↔
      (q ∈ fs.files ∧ globMatch out ".gfa" q = false ∧
       globMatch out ".fastq.gz" q = false) := by
  rw [cleanupFiles_files, List.mem_filter]
  cases h1 : globMatch out ".gfa" q <;> cases h2 : globMatch out ".fastq.gz" q <;>
    simp [h1, h2]

/-- The full run under the nominal environment, started with the three
inputs present and nothing yet under the output directory: it succeeds, and
afterwards the filesystem holds exactly the renamed final artifact plus the
untouched pre-existing files, with no polishing subdirectory left. -/
theorem nominal_run_final_state (cfg : Config) (st : St)
    (hkeep : cfg.keepFiles = false)
    (hout1 : cfg.outputDir ≠ "")
    (hout2 : pyEndsWith cfg.outputDir "/" = false)
    (hname1 : '/' ∉ cfg.assemblyName.data)
    (hname2 : cfg.assemblyName.data.head? ≠ some '.')
    (hfresh : ∀ f ∈ st.fs.files, pyStartsWith f (cfg.outputDir ++ "/") = false)
    (hf : st.fs.isFile cfg.forwardIllumina = true)
    (hr : st.fs.isFile cfg.reverseIllumina = true)
    (hp : st.fs.isFile cfg.pacbio = true) :
    main (nominalEnv cfg) cfg st = .ok (resultSt (main (nominalEnv cfg) cfg st)) ∧
    (∀ x, x ∈ (resultSt (main (nominalEnv cfg) cfg st)).fs.files ↔
      (x = finalFastaPath cfg.outputDir cfg.assemblyName ∨ x ∈ st.fs.files)) ∧
    pilonPolishPath cfg.outputDir ∉
      (resultSt (main (nominalEnv cfg) cfg st)).fs.dirs := by
  have hval : (validate st cfg).2 = true := by
    simp [validate, file_check, hf, hr, hp]
  have hv1 : (validate st cfg).1 = st := validate_true_eq st cfg hval
  have hmain1 : main (nominalEnv cfg) cfg st =
      finalizePhase cfg (stagePhase (nominalEnv cfg) cfg st) := by
    unfold main
    simp only [hval, if_true, hv1]
  have gt_tF : globMatch cfg.outputDir ".fastq.gz"
      (trimmedForward cfg.outputDir cfg.assemblyName) = true := by
    unfold trimmedForward
    exact globMatch_join _ _ hout1 hout2
      (not_startsWith_slash_append _ hname1 (by decide))
      (no_slash_append _ hname1 (by decide))
      (head_append_ne_dot hname2 (by decide))
      (ext_suffix_append (by decide))
  have gt_tR : globMatch cfg.outputDir ".fastq.gz"
      (trimmedReverse cfg.outputDir cfg.assemblyName) = true := by
    unfold trimmedReverse
    exact globMatch_join _ _ hout1 hout2
      (not_startsWith_slash_append _ hname1 (by decide))
      (no_slash_append _ hname1 (by decide))
      (head_append_ne_dot hname2 (by decide))
      (ext_suffix_append (by decide))
  have gt_cF : globMatch cfg.outputDir ".fastq.gz"
      (correctedForward cfg.outputDir cfg.assemblyName) = true := by
    unfold correctedForward
    exact globMatch_join _ _ hout1 hout2
      (not_startsWith_slash_append _ hname1 (by decide))
      (no_slash_append _ hname1 (by decide))
      (head_append_ne_dot hname2 (by decide))
      (ext_suffix_append (by decide))
  have gt_cR : globMatch cfg.outputDir ".fastq.gz"
      (correctedReverse cfg.outputDir cfg.assemblyName) = true := by
    unfold correctedReverse
    exact globMatch_join _ _ hout1 hout2
      (not_startsWith_slash_append _ hname1 (by decide))
      (no_slash_append _ hname1 (by decide))
      (head_append_ne_dot hname2 (by decide))
      (ext_suffix_append (by decide))
  have gt_rc : globMatch cfg.outputDir ".fastq.gz"
      (osPathJoin cfg.outputDir "reads_copy.fastq.gz") = true :=
    globMatch_join _ _ hout1 hout2 (by decide) (by decide) (by decide) (by decide)
  have gt_gfa : globMatch cfg.outputDir ".gfa"
      (osPathJoin cfg.outputDir "assembly.gfa") = true :=
    globMatch_join _ _ hout1 hout2 (by decide) (by decide) (by decide) (by decide)
  have gf_fin_gfa : globMatch cfg.outputDir ".gfa"
      (finalFastaPath cfg.outputDir cfg.assemblyName) = false :=
    not_glob_of_suffix (q := ".fasta")
      (suffix_join_appended cfg.outputDir cfg.assemblyName ".fasta")
      (by decide) (by decide)
  have gf_fin_fq : globMatch cfg.outputDir ".fastq.gz"
      (finalFastaPath cfg.outputDir cfg.assemblyName) = false :=
    not_glob_of_suffix (q := ".fasta")
      (suffix_join_appended cfg.outputDir cfg.assemblyName ".fasta")
      (by decide) (by decide)
  have hpilnorm : pilonPolishPath cfg.outputDir =
      cfg.outputDir ++ "/" ++ "pilon_polish" :=
    osPathJoin_norm _ hout1 hout2 (by decide)
  have hfinnorm : finalFastaPath cfg.outputDir cfg.assemblyName =
      cfg.outputDir ++ "/" ++ (cfg.assemblyName ++ ".fasta") :=
    osPathJoin_norm _ hout1 hout2 (not_startsWith_slash_append _ hname1 (by decide))
  have under_fin : underDir (pilonPolishPath cfg.outputDir)
      (finalFastaPath cfg.outputDir cfg.assemblyName) = false := by
    rw [hpilnorm, hfinnorm]
    exact not_under_of_no_slash (no_slash_append _ hname1 (by decide))
  have under_piP : underDir (pilonPolishPath cfg.outputDir)
      (pilonPolishPath cfg.outputDir ++ "/pilon_round1.fasta") = true :=
    underDir_self_append _ _ (by decide)
  have asm_starts : pyStartsWith (assemblyFastaPath cfg.outputDir)
      (cfg.outputDir ++ "/") = true := by
    rw [show assemblyFastaPath cfg.outputDir = cfg.outputDir ++ "/" ++ "assembly.fasta"
      from osPathJoin_norm _ hout1 hout2 (by decide)]
    exact startsWith_dir _ _
  have pil_pre : (cfg.outputDir ++ "/").data <+:
      ((pilonPolishPath cfg.outputDir) ++ "/").data := by
    rw [hpilnorm]
    rw [show ((cfg.outputDir ++ "/" ++ "pilon_polish") ++ "/").data =
      (cfg.outputDir ++ "/").data ++ ("pilon_polish" ++ "/").data by simp]
    exact List.prefix_append _ _
  have under_st : ∀ x : String, pyStartsWith x (cfg.outputDir ++ "/") = false →
      underDir (pilonPolishPath cfg.outputDir) x = false := by
    intro x hx
    cases hb : underDir (pilonPolishPath cfg.outputDir) x
    · rfl
    · exfalso
      unfold underDir at hb
      rw [pyStartsWith_trans_pre hb pil_pre] at hx
      cases hx
  have hstage_mem : ∀ x, x ∈ (stagePhase (nominalEnv cfg) cfg st).fs.files ↔
      (x = pilonPolishPath cfg.outputDir ++ "/pilon_round1.fasta" ∨
       x = osPathJoin cfg.outputDir "reads_copy.fastq.gz" ∨
       x = osPathJoin cfg.outputDir "assembly.gfa" ∨
       x = assemblyFastaPath cfg.outputDir ∨
       x = correctedReverse cfg.outputDir cfg.assemblyName ∨
       x = correctedForward cfg.outputDir cfg.assemblyName ∨
       x = trimmedReverse cfg.outputDir cfg.assemblyName ∨
       x = trimmedForward cfg.outputDir cfg.assemblyName ∨
       x ∈ st.fs.files) := by
    intro x
    rw [stagePhase_nominal_fs]
    simp only [unicyclerEffect, correctEffect, trimEffect, FS.writeFile,
      List.mem_insert_iff, ensureOutputDir_files]
  have hstage_dirs : pilonPolishPath cfg.outputDir ∈
      (stagePhase (nominalEnv cfg) cfg st).fs.dirs := by
    rw [stagePhase_nominal_fs]
    simp [unicyclerEffect, correctEffect, trimEffect, FS.writeFile, List.mem_insert_iff]
  have hasm_mem : assemblyFastaPath cfg.outputDir ∈
      (stagePhase (nominalEnv cfg) cfg st).fs.files := by
    rw [hstage_mem]
    exact Or.inr (Or.inr (Or.inr (Or.inl rfl)))
  obtain ⟨fsM, hM⟩ := moveFile_ok_exists (stagePhase (nominalEnv cfg) cfg st).fs
    (assemblyFastaPath cfg.outputDir)
    (finalFastaPath cfg.outputDir cfg.assemblyName) hasm_mem
  have hMchar := moveFile_ok_char _ _ _ _ hM
  have hpil_clean : (cleanupFiles fsM cfg.outputDir).isDir
      (pilonPolishPath cfg.outputDir) = true := by
    unfold FS.isDir
    rw [cleanupFiles_dirs, hMchar.2]
    simpa using hstage_dirs
  obtain ⟨fsR, hR⟩ := rmtree_ok_exists _ _ hpil_clean
  have hRchar := rmtree_ok_char _ _ _ hR
  have hmain : main (nominalEnv cfg) cfg st = .ok
      (pushInfo
        { pushInfo { (stagePhase (nominalEnv cfg) cfg st) with fs := fsM }
            "Cleaning up Unicycler output files..." with fs := fsR }
        (doneMsg cfg)) := by
    rw [hmain1]
    unfold finalizePhase
    rw [show finalizeMove cfg (stagePhase (nominalEnv cfg) cfg st).fs = .ok fsM from hM]
    simp only [hkeep, Bool.false_eq_true, if_false]
    dsimp only [pushInfo]
    rw [hR]
  rw [hmain]
  refine ⟨rfl, ?_, ?_⟩
  · intro x
    dsimp only [resultSt, pushInfo]
    rw [hRchar.1 x, cleanupFiles_mem, hMchar.1 x, hstage_mem x]
    constructor
    · rintro ⟨⟨hx, hgfa, hfq⟩, hund⟩
      rcases hx with rfl | ⟨hmem9, hne⟩
      · exact Or.inl rfl
      · rcases hmem9 with rfl | rfl | rfl | rfl | rfl | rfl | rfl | rfl | hst
        · rw [under_piP] at hund
          cases hund
        · rw [gt_rc] at hfq
          cases hfq
        · rw [gt_gfa] at hgfa
          cases hgfa
        · exact absurd rfl hne
        · rw [gt_cR] at hfq
          cases hfq
        · rw [gt_cF] at hfq
          cases hfq
        · rw [gt_tR] at hfq
          cases hfq
        · rw [gt_tF] at hfq
          cases hfq
        · exact Or.inr hst
    · rintro (rfl | hst)
      · exact ⟨⟨Or.inl rfl, gf_fin_gfa, gf_fin_fq⟩, under_fin⟩
      · have hxp := hfresh x hst
        have hxa : x ≠ assemblyFastaPath cfg.outputDir := by
          intro he
          rw [he, asm_starts] at hxp
          cases hxp
        refine ⟨⟨Or.inr ⟨?_, hxa⟩, not_glob_of_not_under _ hxp,
          not_glob_of_not_under _ hxp⟩, under_st x hxp⟩
        tauto
  · dsimp only [resultSt, pushInfo]
    intro hmem
    exact ((hRchar.2 _).1 hmem).2.1 rfl

/-! ## Claim C2 -/

/-- C2: on a successful run with keep-files false the cleanup deletes
exactly the files of the output directory matching `*.gfa` and `*.fastq.gz`
(first conjunct) and removes the polishing subdirectory recursively and
exactly (second conjunct); with keep-files true nothing at all is deleted
after the rename (third conjunct); and for a whole run under the nominal
tool behaviour, started with the inputs present and nothing yet under the
output directory, the run succeeds and afterwards the output directory
contains exactly one `.fasta` file — the renamed final artifact — no
`.gfa` file, no `.fastq.gz` file, and no polishing subdirectory (fourth
conjunct). -/
theorem c2_cleanup_final_state :
    (∀ fs out, (cleanupFiles fs out).files =
        fs.files.filter
          (fun p => !(globMatch out ".gfa" p || globMatch out ".fastq.gz" p)) ∧
      (cleanupFiles fs out).dirs = fs.dirs) ∧
    (∀ fs p fs2, FS.rmtree fs p = .ok fs2 →
      (∀ q, q ∈ fs2.files ↔ (q ∈ fs.files ∧ underDir p q = false)) ∧
      (∀ q, q ∈ fs2.dirs ↔ (q ∈ fs.dirs ∧ q ≠ p ∧ underDir p q = false))) ∧
    (∀ cfg st fs', cfg.keepFiles = true →
      finalizeMove cfg st.fs = .ok fs' →
      finalizePhase cfg st = .ok (pushInfo { st with fs := fs' } (doneMsg cfg))) ∧
    (∀ cfg st, cfg.keepFiles = false →
      cfg.outputDir ≠ "" →
      pyEndsWith cfg.outputDir "/" = false →
      '/' ∉ cfg.assemblyName.data →
      cfg.assemblyName.data.head? ≠ some '.' →
      (∀ f ∈ st.fs.files, pyStartsWith f (cfg.outputDir ++ "/") = false) →
      st.fs.isFile cfg.forwardIllumina = true →
      st.fs.isFile cfg.reverseIllumina = true →
      st.fs.isFile cfg.pacbio = true →
      main (nominalEnv cfg) cfg st = .ok (resultSt (main (nominalEnv cfg) cfg st)) ∧
      inDirWithExt cfg.outputDir ".fasta"
        (finalFastaPath cfg.outputDir cfg.assemblyName) = true ∧
      finalFastaPath cfg.outputDir cfg.assemblyName ∈
        (resultSt (main (nominalEnv cfg) cfg st)).fs.files ∧
      (∀ x ∈ (resultSt (main (nominalEnv cfg) cfg st)).fs.files,
        inDirWithExt cfg.outputDir ".fasta" x = true →
        x = finalFastaPath cfg.outputDir cfg.assemblyName) ∧
      (∀ x ∈ (resultSt (main (nominalEnv cfg) cfg st)).fs.files,
        inDirWithExt cfg.outputDir ".gfa" x = false) ∧
      (∀ x ∈ (resultSt (main (nominalEnv cfg) cfg st)).fs.files,
        inDirWithExt cfg.outputDir ".fastq.gz" x = false) ∧
      pilonPolishPath cfg.outputDir ∉
        (resultSt (main (nominalEnv cfg) cfg st)).fs.dirs) := by
  refine ⟨fun fs out => ⟨cleanupFiles_files fs out, cleanupFiles_dirs fs out⟩,
    fun fs p fs2 h => rmtree_ok_char fs fs2 p h, ?_, ?_⟩
  · intro cfg st fs' hk hmv
    unfold finalizePhase
    rw [hmv]
    simp [hk]
  · intro cfg st hkeep hout1 hout2 hname1 hname2 hfresh hf hr hp
    obtain ⟨h1, h2, h3⟩ :=
      nominal_run_final_state cfg st hkeep hout1 hout2 hname1 hname2 hfresh hf hr hp
    have if_fin : inDirWithExt cfg.outputDir ".fasta"
        (finalFastaPath cfg.outputDir cfg.assemblyName) = true := by
      unfold finalFastaPath
      exact inDirWithExt_join _ _ hout1 hout2
        (not_startsWith_slash_append _ hname1 (by decide))
        (no_slash_append _ hname1 (by decide))
        (ext_suffix_append (by decide))
    have nf_fin_gfa : inDirWithExt cfg.outputDir ".gfa"
        (finalFastaPath cfg.outputDir cfg.assemblyName) = false :=
      not_inDir_of_suffix (q := ".fasta")
        (suffix_join_appended cfg.outputDir cfg.assemblyName ".fasta")
        (by decide) (by decide)
    have nf_fin_fq : inDirWithExt cfg.outputDir ".fastq.gz"
        (finalFastaPath cfg.outputDir cfg.assemblyName) = false :=
      not_inDir_of_suffix (q := ".fasta")
        (suffix_join_appended cfg.outputDir cfg.assemblyName ".fasta")
        (by decide) (by decide)
    refine ⟨h1, if_fin, (h2 _).2 (Or.inl rfl), ?_, ?_, ?_, h3⟩
    · intro x hx hfa
      rcases (h2 x).1 hx with rfl | hst
      · rfl
      · exfalso
        rw [not_inDir_of_not_under _ (hfresh x hst)] at hfa
        cases hfa
    · intro x hx
      rcases (h2 x).1 hx with rfl | hst
      · exact nf_fin_gfa
      · exact not_inDir_of_not_under _ (hfresh x hst)
    · intro x hx
      rcases (h2 x).1 hx with rfl | hst
      · exact nf_fin_fq
      · exact not_inDir_of_not_under _ (hfresh x hst)

theorem c2_cleanup_final_state_witness :
    ((cleanupFiles (FS.mk ["out/a.gfa", "out/b.fastq.gz", "out/test.fasta"] ["out"])
        "out").files =
      (FS.mk ["out/a.gfa", "out/b.fastq.gz", "out/test.fasta"] ["out"]).files.filter
        (fun p => !(globMatch "out" ".gfa" p || globMatch "out" ".fastq.gz" p)) ∧
     (cleanupFiles (FS.mk ["out/a.gfa", "out/b.fastq.gz", "out/test.fasta"] ["out"])
        "out").dirs =
      (FS.mk ["out/a.gfa", "out/b.fastq.gz", "out/test.fasta"] ["out"]).dirs) ∧
    ("out/pilon_polish/x.fasta" ∈ (FS.mk ["keep.txt"] ["out"]).files ↔
      ("out/pilon_polish/x.fasta" ∈
        (FS.mk ["out/pilon_polish/x.fasta", "keep.txt"] ["out", "out/pilon_polish"]).files ∧
       underDir "out/pilon_polish" "out/pilon_polish/x.fasta" = false)) ∧
    finalizePhase cfgKeep stAsm =
      .ok (pushInfo
        { stAsm with fs := FS.mk ["out/test.fasta", "out/assembly.gfa"] ["out"] }
        (doneMsg cfgKeep)) ∧
    main (nominalEnv cfgFix) cfgFix stFix =
      .ok (resultSt (main (nominalEnv cfgFix) cfgFix stFix)) ∧
    inDirWithExt cfgFix.outputDir ".fasta"
      (finalFastaPath cfgFix.outputDir cfgFix.assemblyName) = true ∧
    finalFastaPath cfgFix.outputDir cfgFix.assemblyName ∈
      (resultSt (main (nominalEnv cfgFix) cfgFix stFix)).fs.files ∧
    pilonPolishPath cfgFix.outputDir ∉
      (resultSt (main (nominalEnv cfgFix) cfgFix stFix)).fs.dirs :=
  have h := c2_cleanup_final_state
  have h4 := h.2.2.2 cfgFix stFix rfl (by decide) (by decide) (by decide) (by decide)
    (by decide) (by decide) (by decide) (by decide)
  ⟨h.1 (FS.mk ["out/a.gfa", "out/b.fastq.gz", "out/test.fasta"] ["out"]) "out",
   (h.2.1 (FS.mk ["out/pilon_polish/x.fasta", "keep.txt"] ["out", "out/pilon_polish"])
      "out/pilon_polish" (FS.mk ["keep.txt"] ["out"]) (by rfl)).1
     "out/pilon_polish/x.fasta",
   h.2.2.1 cfgKeep stAsm (FS.mk ["out/test.fasta", "out/assembly.gfa"] ["out"])
     (by rfl) (by rfl),
   h4.1, h4.2.1, h4.2.2.1, h4.2.2.2.2.2.2⟩

/-! ## Claim C10 -/

/-- C10: with keep-files false, the cleanup step deletes every file in the
output directory matching `*.gfa` or `*.fastq.gz`, regardless of which
stage created it: any matching file present when cleanup runs — including
files that pre-existed in the directory or were placed there by the user,
such as original input reads living in the output directory — is removed,
not only the pipeline's own intermediates. -/
theorem c10_cleanup_deletes_all_matching (fs : FS) (outputDir p : String)
    (_hp : p ∈ fs.files)
    (hmatch : globMatch outputDir ".gfa" p = true ∨
              globMatch outputDir ".fastq.gz" p = true) :
    p ∉ (cleanupFiles fs outputDir).files := by
  rw [cleanupFiles_files]
  intro hmem
  rw [List.mem_filter] at hmem
  rcases hmatch with h | h <;> simp [h] at hmem

theorem c10_cleanup_deletes_all_matching_witness :
    "out/r1.fastq.gz" ∉
      (cleanupFiles (FS.mk ["out/r1.fastq.gz", "out/old.gfa", "notes.txt"] []) "out").files :=
  c10_cleanup_deletes_all_matching _ "out" "out/r1.fastq.gz" (by decide)
    (Or.inr (by decide))

/-! ## Claim C9 -/

theorem stagePhase_loggingOut (env : Env) (cfg : Config) (st : St) :
    (stagePhase env cfg st).loggingOut =
      st.loggingOut ++
        ["Trimming Illumina reads...", "Correcting Illumina reads...",
         "Assembling using Unicycler. This will take quite a while..."] := by
  cases hl : cfg.logfile <;>
    simp [stagePhase, trim_reads, correct_reads, assemble, runCmd, pushInfo, hl]

theorem finalizePhase_noPilon (cfg : Config) (stA : St)
    (hkeep : cfg.keepFiles = false)
    (hasm : assemblyFastaPath cfg.outputDir ∈ stA.fs.files)
    (hpilon : pilonPolishPath cfg.outputDir ∉ stA.fs.dirs) :
    finalizePhase cfg stA =
      .fatal (.fileNotFound (pilonPolishPath cfg.outputDir))
        { stA with
          fs := cleanupFiles
            { stA.fs with
              files := (stA.fs.files.filter
                  (fun q => q ≠ assemblyFastaPath cfg.outputDir)).insert
                (finalFastaPath cfg.outputDir cfg.assemblyName) }
            cfg.outputDir,
          loggingOut := stA.loggingOut ++ ["Cleaning up Unicycler output files..."] } := by
  have hm : finalizeMove cfg stA.fs =
      .ok { stA.fs with
            files := (stA.fs.files.filter
                (fun q => q ≠ assemblyFastaPath cfg.outputDir)).insert
              (finalFastaPath cfg.outputDir cfg.assemblyName) } := by
    simp [finalizeMove, FS.moveFile, hasm]
  have hrt : FS.rmtree
      (cleanupFiles
        { stA.fs with
          files := (stA.fs.files.filter
              (fun q => q ≠ assemblyFastaPath cfg.outputDir)).insert
            (finalFastaPath cfg.outputDir cfg.assemblyName) }
        cfg.outputDir)
      (pilonPolishPath cfg.outputDir) =
      .error (.fileNotFound (pilonPolishPath cfg.outputDir)) := by
    simp [FS.rmtree, FS.isDir, cleanupFiles_dirs, hpilon]
  unfold finalizePhase
  rw [hm]
  simp only [hkeep, Bool.false_eq_true, if_false]
  dsimp only [pushInfo]
  rw [hrt]

/-- C9: with keep-files false, whenever after the assemble stage the
fixed-name assembly file exists but the output directory contains no
`pilon_polish` subdirectory, the recursive delete raises an uncaught
FileNotFoundError and the run terminates abnormally — after the final
artifact has already been renamed into place and every `*.gfa` and
`*.fastq.gz` match has already been deleted — without ever emitting the
final success log line, even though the final artifact exists. -/
theorem c9_missing_pilon_polish_fatal (env : Env) (cfg : Config) (st : St)
    (hkeep : cfg.keepFiles = false)
    (hval : (validate st cfg).2 = true)
    (hasm : assemblyFastaPath cfg.outputDir ∈
      (stagePhase env cfg (validate st cfg).1).fs.files)
    (hpilon : pilonPolishPath cfg.outputDir ∉
      (stagePhase env cfg (validate st cfg).1).fs.dirs)
    (hclean : doneMsg cfg ∉ st.loggingOut) :
    main env cfg st =
      .fatal (.fileNotFound (pilonPolishPath cfg.outputDir))
        (resultSt (main env cfg st)) ∧
    finalFastaPath cfg.outputDir cfg.assemblyName ∈
      (resultSt (main env cfg st)).fs.files ∧
    (∀ p, globMatch cfg.outputDir ".gfa" p = true ∨
          globMatch cfg.outputDir ".fastq.gz" p = true →
      p ∉ (resultSt (main env cfg st)).fs.files) ∧
    doneMsg cfg ∉ (resultSt (main env cfg st)).loggingOut := by
  have hmain : main env cfg st =
      .fatal (.fileNotFound (pilonPolishPath cfg.outputDir))
        { (stagePhase env cfg (validate st cfg).1) with
          fs := cleanupFiles
            { (stagePhase env cfg (validate st cfg).1).fs with
              files := ((stagePhase env cfg (validate st cfg).1).fs.files.filter
                  (fun q => q ≠ assemblyFastaPath cfg.outputDir)).insert
                (finalFastaPath cfg.outputDir cfg.assemblyName) }
            cfg.outputDir,
          loggingOut := (stagePhase env cfg (validate st cfg).1).loggingOut ++
            ["Cleaning up Unicycler output files..."] } := by
    unfold main
    simp only [hval, if_true]
    exact finalizePhase_noPilon cfg _ hkeep hasm hpilon
  have hg1 : globMatch cfg.outputDir ".gfa"
      (finalFastaPath cfg.outputDir cfg.assemblyName) = false :=
    not_glob_of_suffix (q := ".fasta")
      (suffix_join_appended cfg.outputDir cfg.assemblyName ".fasta")
      (by decide) (by decide)
  have hg2 : globMatch cfg.outputDir ".fastq.gz"
      (finalFastaPath cfg.outputDir cfg.assemblyName) = false :=
    not_glob_of_suffix (q := ".fasta")
      (suffix_join_appended cfg.outputDir cfg.assemblyName ".fasta")
      (by decide) (by decide)
  rw [hmain]
  refine ⟨rfl, ?_, ?_, ?_⟩
  · dsimp only [resultSt]
    rw [cleanupFiles_files, List.mem_filter]
    constructor
    · simp [List.mem_insert_iff]
    · simp [hg1, hg2]
  · intro p hmatch
    dsimp only [resultSt]
    rw [cleanupFiles_files]
    intro hmem
    rw [List.mem_filter] at hmem
    rcases hmatch with h | h <;> simp [h] at hmem
  · dsimp only [resultSt]
    have hne1 : doneMsg cfg ≠ "Trimming Illumina reads..." :=
      string_head_ne (by rw [doneMsg_head]; decide)
    have hne2 : doneMsg cfg ≠ "Correcting Illumina reads..." :=
      string_head_ne (by rw [doneMsg_head]; decide)
    have hne3 : doneMsg cfg ≠ "Assembling using Unicycler. This will take quite a while..." :=
      string_head_ne (by rw [doneMsg_head]; decide)
    have hne4 : doneMsg cfg ≠ "Cleaning up Unicycler output files..." :=
      string_head_ne (by rw [doneMsg_head]; decide)
    rw [stagePhase_loggingOut, validate_true_eq st cfg hval]
    simp [List.mem_append, hclean, hne1, hne2, hne3, hne4]

theorem c9_missing_pilon_polish_fatal_witness :
    main envNoPilon cfgFix stFix =
      .fatal (.fileNotFound (pilonPolishPath cfgFix.outputDir))
        (resultSt (main envNoPilon cfgFix stFix)) ∧
    finalFastaPath cfgFix.outputDir cfgFix.assemblyName ∈
      (resultSt (main envNoPilon cfgFix stFix)).fs.files ∧
    "out/assembly.gfa" ∉ (resultSt (main envNoPilon cfgFix stFix)).fs.files ∧
    doneMsg cfgFix ∉ (resultSt (main envNoPilon cfgFix stFix)).loggingOut :=
  have h := c9_missing_pilon_polish_fatal envNoPilon cfgFix stFix rfl (by decide)
    (by decide) (by decide) (by decide)
  ⟨h.1, h.2.1, h.2.2.1 "out/assembly.gfa" (Or.inl (by decide)), h.2.2.2⟩

end HybridAssembly
